import Mathlib

/-!
Shallow embedding of the SDI-12 slave sensor core
(`SDI12Sensor.cpp` and the example slave sketches).

Doubles are modelled as exact rationals (`ℚ`); a measurement input is an
`Option ℚ`, where `none` stands for a NaN double (the only NaN observation
the code makes is the `value != value` self-comparison).  Machine integer
casts are modelled by `Int.floor`/`Int.toNat` on the nonnegative quantities
the code actually casts, together with explicit statements of the ranges
that make those casts exact.  The model is faithful for |value| ≤ 2^31 − 1,
the range on which the C `(int)` cast of the magnitude is defined.
-/

namespace SDI12

/-- Fueled form of the digit-count loop of `IntegralLength`
(`do { val /= 10; ++len; } while (val > 0);`); the fuel only bounds the
iteration count (the loop runs once per decimal digit) and is irrelevant
whenever it is at least `val`. -/
def intLenLoopGo : ℕ → ℕ → ℕ
  | 0, _ => 1
  | fuel + 1, val => if val / 10 = 0 then 1 else 1 + intLenLoopGo fuel (val / 10)

/-- Embedding of the digit-count loop of `IntegralLength`. -/
def intLenLoop (val : ℕ) : ℕ := intLenLoopGo val val

/-- Embedding of `IntegralLength(double)`: digits of the truncated magnitude. -/
def IntegralLength (value : ℚ) : ℕ :=
  intLenLoop (Int.toNat ⌊|value|⌋)

/-- Fueled form of the whole-part emission loop of `dtoa`
(`do { *wstr++ = 48 + whole % 10; } while (whole /= 10);`),
least-significant digit first; the fuel is irrelevant whenever it is at
least `whole`. -/
def wholeDigitsGo : ℕ → ℕ → List Char
  | 0, whole => [Char.ofNat (48 + whole % 10)]
  | fuel + 1, whole =>
    if whole / 10 = 0 then [Char.ofNat (48 + whole % 10)]
    else Char.ofNat (48 + whole % 10) :: wholeDigitsGo fuel (whole / 10)

/-- Embedding of the whole-part emission loop of `dtoa`. -/
def wholeDigitsRev (whole : ℕ) : List Char := wholeDigitsGo whole whole

/-- Embedding of the fractional-digit emission loop of `dtoa`
(`while (len_of_sigfig > 0) { ... }`), least-significant digit first. -/
def fracDigitsRev : ℕ → ℕ → List Char
  | 0, _ => []
  | l + 1, f => Char.ofNat (48 + f % 10) :: fracDigitsRev l (f / 10)

/-- Embedding of the trailing-zero stripping loop of `dtoa`
(`while (len_of_sigfig > 0 && int_from_frac % 10 == 0) { ... }`);
returns the remaining significant-figure count and stripped fraction. -/
def stripZeros : ℕ → ℕ → ℕ × ℕ
  | 0, f => (0, f)
  | l + 1, f => if f % 10 = 0 then stripZeros l (f / 10) else (l + 1, f)

/-- Embedding of the rounding block of `dtoa` (both overloads share it):
input the precision, the integral part, the scaled fractional integer and
the remainder `diff_frac`; output the adjusted `(whole, int_from_frac)`. -/
def dtoaRound (prec whole int_from_frac : ℕ) (diff : ℚ) : ℕ × ℕ :=
  if diff > 499 / 1000 then
    if int_from_frac + 1 ≥ 10 ^ prec then (whole + 1, 0) else (whole, int_from_frac + 1)
  else if diff = 1 / 2 then
    if 0 < prec ∧ int_from_frac % 2 = 1 then
      (if int_from_frac + 1 ≥ 10 ^ prec then (whole + 1, 0) else (whole, int_from_frac + 1))
    else if prec = 0 ∧ whole % 2 = 1 then
      (if int_from_frac + 1 ≥ 10 ^ prec then (whole + 1, 0) else (whole, int_from_frac + 1))
    else (whole, int_from_frac)
  else (whole, int_from_frac)

/-- Embedding of the emission block of the char-buffer `dtoa` (lines that
write the fractional digits, the carry check, the decimal point, the whole
part and the sign); the list is in emission order, i.e. reversed. -/
def dtoaEmit (prec len f whole : ℕ) (neg pos_sign : Bool) : List Char :=
  let hasDec : Bool := decide (0 < prec) && decide (0 < len)
  let fracPart : List Char := if 0 < prec then fracDigitsRev len f else []
  let fAfter : ℕ := f / 10 ^ len
  let whole2 : ℕ := if 0 < prec ∧ 0 < fAfter then whole + 1 else whole
  fracPart ++ (if hasDec then ['.'] else []) ++ wholeDigitsRev whole2 ++
    (if neg then ['-'] else if pos_sign then ['+'] else [])

/-- Rounding, stripping and emission of the char-buffer `dtoa` after the
overflow/threshold gates; returns the string and the returned length. -/
def dtoaAssemble (prec : ℕ) (neg zero_trail pos_sign : Bool) (whole f0 : ℕ)
    (diff : ℚ) : String × ℕ :=
  let wf := dtoaRound prec whole f0 diff
  let lf := if 0 < prec ∧ zero_trail = false then stripZeros prec wf.2 else (prec, wf.2)
  let chars := dtoaEmit prec lf.1 lf.2 wf.1 neg pos_sign
  (String.mk chars.reverse, chars.length)

/-- Threshold `(double)(0x7FFFFFFF)` above which `dtoa` falls back to
`sprintf`. -/
def thres_max : ℚ := 2 ^ 31 - 1

/-- Modelled from the spec: the "library-grade fixed-point formatter"
(`sprintf("%.*f", ...)`) used by the char-buffer `dtoa` for magnitudes above
`thres_max`; the C library is not part of the repository.  Rendered as
round-half-to-even fixed-point at `p` decimals. -/
def sprintfF (plusFlag : Bool) (x : ℚ) (p : ℕ) : String :=
  let neg := x < 0
  let scaled := |x| * 10 ^ p
  let fl := ⌊scaled⌋
  let d := scaled - fl
  let m : ℕ := Int.toNat
    (if d < 1 / 2 then fl else if d > 1 / 2 then fl + 1
     else if fl % 2 = 0 then fl else fl + 1)
  let wholePart := (wholeDigitsRev (m / 10 ^ p)).reverse
  let fracPart := if 0 < p then
      '.' :: ((fracDigitsRev p (m % 10 ^ p)).reverse) else []
  String.mk ((if neg then ['-'] else if plusFlag then ['+'] else []) ++ wholePart ++ fracPart)

/-- Embedding of the char-buffer overload
`size_t dtoa(double value, char *str, uint8_t prec, uint8_t fit_len,
bool zero_trail, bool pos_sign)`.  `none` models a NaN input.  The result is
the written string (without the NUL) and the returned length. -/
def dtoa (value : Option ℚ) (prec fit_len : ℕ) (zero_trail pos_sign : Bool) :
    String × ℕ :=
  match value with
  | none => ("NaN", 0)
  | some x =>
    let neg : Bool := decide (x < 0)
    let v : ℚ := if x < 0 then -x else x
    let whole : ℕ := Int.toNat ⌊v⌋
    let prec1 : ℕ := if 9 < prec then 9 else prec
    if 0 < fit_len ∧ fit_len ≤ IntegralLength v then ("NaN", 0)
    else
      let n := IntegralLength v
      let prec2 : ℕ :=
        if 0 < fit_len ∧ n + 2 ≤ fit_len ∧ fit_len - n - 2 < prec1 then
          (fit_len - n - 2) + (if !pos_sign && !neg then 1 else 0)
        else prec1
      if thres_max < v then
        let s := sprintfF pos_sign (if neg then -v else v) prec2
        (s, s.length)
      else
        let p10 : ℚ := (v - (whole : ℚ)) * 10 ^ prec2
        let f0 : ℕ := Int.toNat ⌊p10⌋
        dtoaAssemble prec2 neg zero_trail pos_sign whole f0 (p10 - (f0 : ℚ))

/-- Embedding of the fractional-digit loop of Arduino
`Print::printFloat`: repeatedly scale the remainder by 10 and print the
truncated digit. -/
def printFracDigits : ℕ → ℚ → List Char
  | 0, _ => []
  | d + 1, rem =>
    let rem10 := rem * 10
    let dig : ℕ := Int.toNat ⌊rem10⌋
    Char.ofNat (48 + dig % 10) :: printFracDigits d (rem10 - (dig : ℚ))

/-- Modelled from the spec: the external Arduino `String(double, decimals)`
conversion used by the String overload of `dtoa` (the "library-grade"
rendering; the Arduino core is not part of the repository).  It follows
Arduino `Print::printFloat`: print the sign, add `0.5 * 10^-decimals`,
print the truncated integral part, then `decimals` truncated digits. -/
def arduinoFloatString (x : ℚ) (d : ℕ) : String :=
  let neg := x < 0
  let y : ℚ := |x| + 1 / (2 * 10 ^ d)
  let ip : ℕ := Int.toNat ⌊y⌋
  let chars :=
    (if neg then ['-'] else []) ++ (wholeDigitsRev ip).reverse ++
      (if 0 < d then '.' :: printFracDigits d (y - (ip : ℚ)) else [])
  String.mk chars

/-- Embedding of the `String` overload
`size_t dtoa(double value, String &str, uint8_t prec, uint8_t fit_len,
bool zero_trail, bool pos_sign)`. -/
def dtoaStr (value : Option ℚ) (prec fit_len : ℕ) (zero_trail pos_sign : Bool) :
    String × ℕ :=
  match value with
  | none => ("NaN", 0)
  | some x =>
    let neg : Bool := decide (x < 0)
    let v : ℚ := if x < 0 then -x else x
    let whole : ℕ := Int.toNat ⌊v⌋
    let prec1 : ℕ := if 9 < prec then 9 else prec
    if 0 < fit_len ∧ fit_len ≤ IntegralLength v then ("NaN", 0)
    else
      let n := IntegralLength v
      let prec2 : ℕ :=
        if 0 < fit_len ∧ n + 2 ≤ fit_len ∧ fit_len - n - 2 < prec1 then
          (fit_len - n - 2) + (if !pos_sign && !neg then 1 else 0)
        else prec1
      if thres_max < v then
        let s := if neg then arduinoFloatString (-v) prec2
          else if pos_sign then "+" ++ arduinoFloatString v prec2
          else arduinoFloatString v prec2
        (s, s.length)
      else
        let p10 : ℚ := (v - (whole : ℚ)) * 10 ^ prec2
        let f0 : ℕ := Int.toNat ⌊p10⌋
        let wf := dtoaRound prec2 whole f0 (p10 - (f0 : ℚ))
        let lf := if 0 < prec2 ∧ zero_trail = false then stripZeros prec2 wf.2
          else (prec2, wf.2)
        let s := if neg then arduinoFloatString (-v) lf.1
          else if pos_sign then "+" ++ arduinoFloatString v lf.1
          else arduinoFloatString v lf.1
        (s, s.length)

/-- Modelled from the spec: `SDI12_VALUE_STR_SIZE` from the missing header —
the per-value field cap; an SDI-12 value is a polarity sign, up to seven
digits and a decimal point, hence 9 characters. -/
def SDI12_VALUE_STR_SIZE : ℕ := 9

/-- Modelled from the spec: `SDI12_VALUES_STR_SIZE_35`, the short-exchange
(`aM!`) response line cap. -/
def SDI12_VALUES_STR_SIZE_35 : ℕ := 35

/-- Modelled from the spec: `SDI12_VALUES_STR_SIZE_75`, the release-mode
(`aC!`) response line cap. -/
def SDI12_VALUES_STR_SIZE_75 : ℕ := 75

/-- Single step of the packing loop of `formatOutputSDI`: the accumulator is
the list of closed lines together with the line under construction
(`dValues[0..j-1]` and `dValues[j]`); a field is the `dtoa` output string
with the returned length. -/
def packStep (maxChar : ℕ) (acc : List String × String) (field : String × ℕ) :
    List String × String :=
  if acc.2.length + field.2 < maxChar then (acc.1, acc.2 ++ field.1)
  else (acc.1 ++ [acc.2], field.1)

/-- Packing loop of `formatOutputSDI` over a list of encoded fields,
starting from the cleared `dValues[0]`. -/
def packFields (fields : List (String × ℕ)) (maxChar : ℕ) : List String :=
  let r := fields.foldl (packStep maxChar) ([], "")
  r.1 ++ [r.2]

/-- Embedding of `formatOutputSDI(float*, String*, unsigned int)` from the
slave sketches: encode each value with `dtoa` at precision 6 and field cap
`SDI12_VALUE_STR_SIZE`, pack greedily under `maxChar`, and fill the
remaining slots of the ten-element `dValues` array with empty strings. -/
def formatOutputSDI (values : List (Option ℚ)) (maxChar : ℕ) : List String :=
  let lines := packFields
    (values.map fun v => dtoa v 6 SDI12_VALUE_STR_SIZE false true) maxChar
  lines ++ List.replicate (10 - lines.length) ""

/-- Model of the EEPROM byte store consumed through `EEPROM.read` and
`EEPROM.update`. -/
structure EEPROMState where
  mem : Int → Char

/-- Embedding of `EEPROM.update`. -/
def EEPROMState.update (ee : EEPROMState) (idx : Int) (val : Char) : EEPROMState :=
  ⟨fun i => if i = idx then val else ee.mem i⟩

/-- Embedding of `EEPROM.read`. -/
def EEPROMState.read (ee : EEPROMState) (idx : Int) : Char := ee.mem idx

/-- Embedding of C `isalnum` on the ASCII characters the device handles. -/
def isalnum (c : Char) : Bool := c.isAlphanum

/-- Modelled from the spec: `SDI12SENSOR_ERR_INVALID` from the missing
header, the sentinel (-1) that disables EEPROM mirroring. -/
def SDI12SENSOR_ERR_INVALID : Int := -1

/-- Device identity state of `SDI12Sensor`: the stored address and the
EEPROM slot. -/
structure SDI12Sensor where
  sensor_address_ : Char
  eeprom_address_ : Int
deriving DecidableEq

/-- Embedding of the default constructor `SDI12Sensor()`. -/
def SDI12Sensor.mkDefault : SDI12Sensor :=
  ⟨'0', SDI12SENSOR_ERR_INVALID⟩

/-- Embedding of the constructor `SDI12Sensor(char address, int
eeprom_address)`: take the address from EEPROM when the slot is enabled,
else the argument; replace a non-alphanumeric result with `'0'`. -/
def SDI12Sensor.construct (address : Char) (eeprom_address : Int)
    (ee : EEPROMState) : SDI12Sensor :=
  let s : SDI12Sensor :=
    if 0 ≤ eeprom_address then ⟨ee.read eeprom_address, eeprom_address⟩
    else ⟨address, SDI12SENSOR_ERR_INVALID⟩
  if isalnum s.sensor_address_ = false then ⟨'0', s.eeprom_address_⟩ else s

/-- Embedding of `SDI12Sensor::Address()`. -/
def SDI12Sensor.Address (s : SDI12Sensor) : Char := s.sensor_address_

/-- Embedding of `SDI12Sensor::SetAddress(char)`: returns the boolean
result together with the updated sensor and EEPROM states. -/
def SDI12Sensor.SetAddress (s : SDI12Sensor) (ee : EEPROMState) (address : Char) :
    Bool × SDI12Sensor × EEPROMState :=
  if isalnum address then
    (true, ⟨address, s.eeprom_address_⟩,
      if 0 ≤ s.eeprom_address_ then ee.update s.eeprom_address_ address else ee)
  else (false, s, ee)

/-- Run a sequence of `SetAddress` calls, threading sensor and EEPROM. -/
def runSetAddresses : SDI12Sensor × EEPROMState → List Char →
    SDI12Sensor × EEPROMState
  | se, [] => se
  | (s, ee), c :: cs =>
    let r := s.SetAddress ee c
    runSetAddresses (r.2.1, r.2.2) cs

/-- Simulated measurement data of `pollSensor` in the slave sketches. -/
def pollSensorValues : List (Option ℚ) :=
  [some 1.1, some (-2.22), some 3.333, some (-4.4444), some 5.55555,
   some (-6.666666), some 78.777777, some (-890.888888), some (-0.11111111)]

/-- Device used by the slave sketches: `SDI12Sensor sensor('0', -1);`. -/
def slaveSensor : SDI12Sensor :=
  SDI12Sensor.construct '0' (-1) ⟨fun _ => '\x00'⟩

/-- Embedding of the `kStateMeasurement` branch of `loop()` for an `aM!`
command (`param1 == 0`, primary not an identification probe): the device
first sends the timing token `atttn\r\n`; after the acquisition delay, if a
line break was received or the device is no longer active it clears every
response-line slot and sends nothing further, otherwise it packs the polled
values under the 35-character cap and sends the service request
`<address>\r\n`.  The result is the list of sent messages and the final
`dValues`. -/
def measurementCycle (lineBreak active : Bool) : List String × List String :=
  let addr := String.mk [slaveSensor.Address]
  let atttn := addr ++ "0219" ++ "\r\n"
  if lineBreak || !active then
    ([atttn], List.replicate 10 "")
  else
    ([atttn, addr ++ "\r\n"], formatOutputSDI pollSensorValues SDI12_VALUES_STR_SIZE_35)

end SDI12

namespace SDI12

/-- The fuel of the digit-count loop is irrelevant once it covers the value. -/
theorem intLenLoopGo_congr (fuel1 : ℕ) : ∀ fuel2 val : ℕ, val ≤ fuel1 →
    val ≤ fuel2 → intLenLoopGo fuel1 val = intLenLoopGo fuel2 val := by
  induction fuel1 with
  | zero =>
    intro fuel2 val h1 _
    have hval : val = 0 := by omega
    subst hval
    cases fuel2 <;> simp [intLenLoopGo]
  | succ fuel1 ih =>
    intro fuel2 val h1 h2
    cases fuel2 with
    | zero =>
      have hval : val = 0 := by omega
      subst hval
      simp [intLenLoopGo]
    | succ fuel2 =>
      simp only [intLenLoopGo]
      by_cases h : val / 10 = 0
      · simp [h]
      · have hv : 0 < val := by
          rcases Nat.eq_zero_or_pos val with h0 | h0
          · exact absurd (by simp [h0]) h
          · exact h0
        have hd : val / 10 < val := Nat.div_lt_self hv (by omega)
        simp only [h, if_false]
        rw [ih fuel2 (val / 10) (by omega) (by omega)]

/-- Unfolding equation of the digit-count loop. -/
theorem intLenLoop_eq (val : ℕ) :
    intLenLoop val = if val / 10 = 0 then 1 else 1 + intLenLoop (val / 10) := by
  unfold intLenLoop
  cases val with
  | zero => simp [intLenLoopGo]
  | succ n =>
    simp only [intLenLoopGo]
    by_cases h : (n + 1) / 10 = 0
    · simp [h]
    · simp only [h, if_false]
      have hd : (n + 1) / 10 < n + 1 := Nat.div_lt_self (by omega) (by omega)
      rw [intLenLoopGo_congr n ((n + 1) / 10) ((n + 1) / 10) (by omega) le_rfl]

/-- The fuel of the whole-part emission loop is irrelevant once it covers
the value. -/
theorem wholeDigitsGo_congr (fuel1 : ℕ) : ∀ fuel2 val : ℕ, val ≤ fuel1 →
    val ≤ fuel2 → wholeDigitsGo fuel1 val = wholeDigitsGo fuel2 val := by
  induction fuel1 with
  | zero =>
    intro fuel2 val h1 _
    have hval : val = 0 := by omega
    subst hval
    cases fuel2 <;> simp [wholeDigitsGo]
  | succ fuel1 ih =>
    intro fuel2 val h1 h2
    cases fuel2 with
    | zero =>
      have hval : val = 0 := by omega
      subst hval
      simp [wholeDigitsGo]
    | succ fuel2 =>
      simp only [wholeDigitsGo]
      by_cases h : val / 10 = 0
      · simp [h]
      · have hv : 0 < val := by
          rcases Nat.eq_zero_or_pos val with h0 | h0
          · exact absurd (by simp [h0]) h
          · exact h0
        have hd : val / 10 < val := Nat.div_lt_self hv (by omega)
        simp only [h, if_false]
        rw [ih fuel2 (val / 10) (by omega) (by omega)]

/-- Unfolding equation of the whole-part emission loop. -/
theorem wholeDigitsRev_eq (val : ℕ) :
    wholeDigitsRev val = if val / 10 = 0 then [Char.ofNat (48 + val % 10)]
      else Char.ofNat (48 + val % 10) :: wholeDigitsRev (val / 10) := by
  unfold wholeDigitsRev
  cases val with
  | zero => simp [wholeDigitsGo]
  | succ n =>
    simp only [wholeDigitsGo]
    by_cases h : (n + 1) / 10 = 0
    · simp [h]
    · simp only [h, if_false]
      have hd : (n + 1) / 10 < n + 1 := Nat.div_lt_self (by omega) (by omega)
      rw [wholeDigitsGo_congr n ((n + 1) / 10) ((n + 1) / 10) (by omega) le_rfl]

/-- The digit counter always reports at least one digit. -/
theorem intLenLoop_pos (m : ℕ) : 1 ≤ intLenLoop m := by
  rw [intLenLoop_eq]
  split <;> omega

/-- The digit counter dominates the counted number. -/
theorem lt_pow_intLenLoop (m : ℕ) : m < 10 ^ intLenLoop m := by
  induction m using Nat.strong_induction_on with
  | _ m ih =>
    rw [intLenLoop_eq]
    split
    · next h =>
      have : m < 10 := by omega
      simpa using this
    · next h =>
      have hm : 0 < m := by
        rcases Nat.eq_zero_or_pos m with h0 | h0
        · exact absurd (by simp [h0]) h
        · exact h0
      have hlt := ih (m / 10) (Nat.div_lt_self hm (by omega))
      have hmod : m % 10 < 10 := Nat.mod_lt _ (by omega)
      have hdm : m = 10 * (m / 10) + m % 10 := (Nat.div_add_mod m 10).symm
      calc m < 10 * (m / 10) + 10 := by omega
        _ ≤ 10 * 10 ^ intLenLoop (m / 10) := by omega
        _ = 10 ^ (1 + intLenLoop (m / 10)) := by rw [pow_add, pow_one]

/-- Any number below `10^k` (with `k` positive) has at most `k` digits. -/
theorem intLenLoop_le (m k : ℕ) : 1 ≤ k → m < 10 ^ k → intLenLoop m ≤ k := by
  induction k generalizing m with
  | zero => omega
  | succ k ih =>
    intro _ h
    rw [intLenLoop_eq]
    split
    · omega
    · next hne =>
      have hk1 : 1 ≤ k := by
        by_contra hk0
        have hk0 : k = 0 := by omega
        subst hk0
        norm_num at h
        exact hne (by omega)
      have hdiv : m / 10 < 10 ^ k := by
        refine (Nat.div_lt_iff_lt_mul (by omega)).mpr ?_
        calc m < 10 ^ (k + 1) := h
          _ = 10 ^ k * 10 := by rw [pow_succ]
      have := ih (m / 10) hk1 hdiv
      omega

/-- The whole-part emission loop prints exactly `intLenLoop` digits. -/
theorem wholeDigitsRev_length (m : ℕ) :
    (wholeDigitsRev m).length = intLenLoop m := by
  induction m using Nat.strong_induction_on with
  | _ m ih =>
    rw [wholeDigitsRev_eq, intLenLoop_eq]
    split
    · simp
    · next h =>
      have hm : 0 < m := by
        rcases Nat.eq_zero_or_pos m with h0 | h0
        · exact absurd (by simp [h0]) h
        · exact h0
      simp [ih (m / 10) (Nat.div_lt_self hm (by omega))]
      omega

/-- The fractional emission loop prints exactly the requested digits. -/
theorem fracDigitsRev_length (l f : ℕ) : (fracDigitsRev l f).length = l := by
  induction l generalizing f with
  | zero => rfl
  | succ l ih => simp [fracDigitsRev, ih]

/-- Stripping zeros never increases the significant-figure count. -/
theorem stripZeros_fst_le (l f : ℕ) : (stripZeros l f).1 ≤ l := by
  induction l generalizing f with
  | zero => simp [stripZeros]
  | succ l ih =>
    rw [stripZeros]
    split
    · exact le_trans (ih _) (by omega)
    · simp

/-- Stripping zeros keeps the fraction below the bound of the kept digits. -/
theorem stripZeros_snd_lt (l f : ℕ) (h : f < 10 ^ l) :
    (stripZeros l f).2 < 10 ^ (stripZeros l f).1 := by
  induction l generalizing f with
  | zero => simpa [stripZeros] using h
  | succ l ih =>
    rw [stripZeros]
    split
    · refine ih _ ?_
      refine (Nat.div_lt_iff_lt_mul (by omega)).mpr ?_
      calc f < 10 ^ (l + 1) := h
        _ = 10 ^ l * 10 := by rw [pow_succ]
    · simpa using h

/-- Stripping a zero fraction strips everything. -/
theorem stripZeros_zero (l : ℕ) : stripZeros l 0 = (0, 0) := by
  induction l with
  | zero => rfl
  | succ l ih => simpa [stripZeros] using ih

/-- Case analysis of the shared rounding block: either the integral part is
unchanged and the fraction stays in range, or a carry occurred and the
fraction reset to zero. -/
theorem dtoaRound_cases (p w f : ℕ) (d : ℚ) (hf : f < 10 ^ p) :
    (∃ f2, dtoaRound p w f d = (w, f2) ∧ f2 < 10 ^ p) ∨
      dtoaRound p w f d = (w + 1, 0) := by
  unfold dtoaRound
  split_ifs with h1 h2 h3 h4 h5 h6 h7 <;>
    first
      | (right; rfl)
      | (left; exact ⟨_, rfl, by omega⟩)

/-- Adding one to a number grows its digit count by at most one. -/
theorem intLenLoop_succ_le (w : ℕ) : intLenLoop (w + 1) ≤ intLenLoop w + 1 := by
  refine intLenLoop_le _ _ (by have := intLenLoop_pos w; omega) ?_
  have h1 := lt_pow_intLenLoop w
  have h2 : 10 ^ intLenLoop w < 10 ^ (intLenLoop w + 1) := by
    have : (10 : ℕ) ^ intLenLoop w * 1 < 10 ^ intLenLoop w * 10 := by
      have : 0 < (10 : ℕ) ^ intLenLoop w := pow_pos (by omega) _
      omega
    calc 10 ^ intLenLoop w = 10 ^ intLenLoop w * 1 := by omega
      _ < 10 ^ intLenLoop w * 10 := this
      _ = 10 ^ (intLenLoop w + 1) := by rw [pow_succ]
  omega

/-- Character count of the emission block, in terms of its parts. -/
theorem dtoaEmit_length (p len f whole : ℕ) (neg ps : Bool) :
    (dtoaEmit p len f whole neg ps).length =
      (if 0 < p then len else 0) +
      (if 0 < p ∧ 0 < len then 1 else 0) +
      intLenLoop (if 0 < p ∧ 0 < f / 10 ^ len then whole + 1 else whole) +
      (if neg || ps then 1 else 0) := by
  unfold dtoaEmit
  by_cases hp : 0 < p <;> by_cases hl : 0 < len <;> cases neg <;> cases ps <;>
    simp [hp, hl, fracDigitsRev_length, wholeDigitsRev_length] <;> omega

/-- Length bound for the assembled output: at most the precision plus the
decimal point plus the (possibly carried) integral digits plus the sign. -/
theorem dtoaAssemble_length (p w f : ℕ) (d : ℚ) (neg ps : Bool)
    (hf : f < 10 ^ p) :
    (dtoaAssemble p neg false ps w f d).1.length ≤
      max (p + 1 + intLenLoop w) (intLenLoop w + 1) +
        (if neg || ps then 1 else 0) := by
  have hmklen : ∀ l : List Char, (String.mk l.reverse).length = l.length := by
    intro l
    simp [String.length]
  rcases dtoaRound_cases p w f d hf with ⟨f2, heq, hf2⟩ | heq <;>
    simp only [dtoaAssemble, heq, hmklen, dtoaEmit_length, and_true,
      eq_self_iff_true]
  · have hle := stripZeros_fst_le p f2
    have hlt := stripZeros_snd_lt p f2 hf2
    have hdiv : (stripZeros p f2).2 / 10 ^ (stripZeros p f2).1 = 0 :=
      Nat.div_eq_of_lt hlt
    by_cases hp : 0 < p
    · simp only [if_pos hp, hdiv]
      split_ifs <;> omega
    · simp only [if_neg hp]
      split_ifs <;> omega
  · have hcar := intLenLoop_succ_le w
    by_cases hp : 0 < p
    · simp only [if_pos hp, stripZeros_zero]
      norm_num
      omega
    · have hp0 : p = 0 := by omega
      subst hp0
      norm_num
      omega

/-- The scaled fractional part truncates to below `10^p`. -/
theorem fracScaled_lt (v : ℚ) (hv : 0 ≤ v) (p : ℕ) :
    Int.toNat ⌊(v - ((Int.toNat ⌊v⌋ : ℕ) : ℚ)) * 10 ^ p⌋ < 10 ^ p := by
  have hfl : ((Int.toNat ⌊v⌋ : ℕ) : ℚ) = ((⌊v⌋ : ℤ) : ℚ) := by
    have := Int.toNat_of_nonneg (Int.floor_nonneg.mpr hv)
    exact_mod_cast congrArg (fun z : ℤ => (z : ℚ)) this
  rw [hfl]
  have h0 : 0 ≤ v - (⌊v⌋ : ℚ) := sub_nonneg.mpr (Int.floor_le v)
  have h1 : v - (⌊v⌋ : ℚ) < 1 := by
    have := Int.lt_floor_add_one v
    linarith
  have hpow : (0 : ℚ) < 10 ^ p := by positivity
  have hlt : (v - (⌊v⌋ : ℚ)) * 10 ^ p < 10 ^ p := by
    calc (v - (⌊v⌋ : ℚ)) * 10 ^ p < 1 * 10 ^ p :=
          mul_lt_mul_of_pos_right h1 hpow
      _ = 10 ^ p := one_mul _
  have hflt : ⌊(v - (⌊v⌋ : ℚ)) * 10 ^ p⌋ < ((10 ^ p : ℕ) : ℤ) := by
    refine Int.floor_lt.mpr ?_
    push_cast
    exact hlt
  have hne : (10 : ℕ) ^ p ≠ 0 := by positivity
  exact (Int.toNat_lt' hne).mpr hflt


/-- Absolute-value form of the sign-splitting prologue of both overloads. -/
theorem if_lt_zero_abs (q : ℚ) : (if q < 0 then -q else q) = |q| := by
  rcases lt_or_le q 0 with h | h
  · rw [if_pos h, abs_of_neg h]
  · rw [if_neg (not_lt.mpr h), abs_of_nonneg h]

/-- The integral digit count only depends on the magnitude. -/
theorem IntegralLength_abs (q : ℚ) : IntegralLength |q| = IntegralLength q := by
  simp [IntegralLength, abs_abs]

/-- Overflow gate of the char-buffer overload: when the integral digit
count reaches the field cap, the overflow token is returned with length 0. -/
theorem dtoa_gate (q : ℚ) (prec fit_len : ℕ) (zt psn : Bool)
    (h1 : 0 < fit_len) (h2 : fit_len ≤ IntegralLength q) :
    dtoa (some q) prec fit_len zt psn = ("NaN", 0) := by
  simp only [dtoa, if_lt_zero_abs, IntegralLength_abs]
  rw [if_pos ⟨h1, h2⟩]

/-- Overflow gate of the String overload, identical to the char-buffer one. -/
theorem dtoaStr_gate (q : ℚ) (prec fit_len : ℕ) (zt psn : Bool)
    (h1 : 0 < fit_len) (h2 : fit_len ≤ IntegralLength q) :
    dtoaStr (some q) prec fit_len zt psn = ("NaN", 0) := by
  simp only [dtoaStr, if_lt_zero_abs, IntegralLength_abs]
  rw [if_pos ⟨h1, h2⟩]

/-- C1 (counterexample): at value 9.5, precision 0, `max_field_len` 2 and
the positive-sign flag, `dtoa` writes "+10" — three visible characters,
exceeding `max_field_len = 2`; the claim that the text never exceeds
`max_field_len` is false. -/
theorem dtoa_c1_counterexample :
    (dtoa (some (19 / 2)) 0 2 false true).1 = "+10" ∧
      ¬((dtoa (some (19 / 2)) 0 2 false true).1.length ≤ 2) := by
  with_unfolding_all decide

/-- C1 (amended): for |value| ≤ 2^31 − 1, when trailing zeros are stripped
(`zero_trail = false`) and `max_field_len` is at least the integral digit
count plus two (so the precision-resize branch applies), the text written
by `dtoa`, excluding the terminating NUL, is at most `max_field_len`
characters long. -/
theorem dtoa_fit_length (q : ℚ) (prec fit_len : ℕ) (ps : Bool)
    (hq : |q| ≤ thres_max) (hfit : IntegralLength q + 2 ≤ fit_len) :
    (dtoa (some q) prec fit_len false ps).1.length ≤ fit_len := by
  have hIL : 1 ≤ IntegralLength q := intLenLoop_pos _
  simp only [dtoa, if_lt_zero_abs, IntegralLength_abs]
  rw [if_neg (by omega : ¬(0 < fit_len ∧ fit_len ≤ IntegralLength q))]
  rw [if_neg (not_lt.mpr hq)]
  set p2 : ℕ := (if 0 < fit_len ∧ IntegralLength q + 2 ≤ fit_len ∧
      fit_len - IntegralLength q - 2 < (if 9 < prec then 9 else prec) then
      fit_len - IntegralLength q - 2 +
        (if (!ps && !decide (q < 0)) = true then 1 else 0)
    else if 9 < prec then 9 else prec) with hp2
  have hf := fracScaled_lt |q| (abs_nonneg q) p2
  refine le_trans (dtoaAssemble_length p2 _ _ _ (decide (q < 0)) ps hf) ?_
  have hwn : intLenLoop (Int.toNat ⌊|q|⌋) = IntegralLength q := rfl
  rw [hwn]
  have hes : (if (!ps && !decide (q < 0)) = true then 1 else 0) +
      (if (decide (q < 0) || ps) = true then 1 else 0) = 1 := by
    cases ps <;> by_cases h : q < 0 <;> simp [h]
  have hp2le : p2 ≤ fit_len - IntegralLength q - 2 +
      (if (!ps && !decide (q < 0)) = true then 1 else 0) := by
    by_cases hcl : 0 < fit_len ∧ IntegralLength q + 2 ≤ fit_len ∧
        fit_len - IntegralLength q - 2 < (if 9 < prec then 9 else prec)
    · rw [hp2, if_pos hcl]
    · rw [hp2, if_neg hcl]
      have hnc : ¬(fit_len - IntegralLength q - 2 <
          (if 9 < prec then 9 else prec)) := by
        intro hc
        exact hcl ⟨by omega, hfit, hc⟩
      omega
  rw [max_eq_left (by omega : IntegralLength q + 1 ≤ p2 + 1 + IntegralLength q)]
  omega

/-- C1 (witness): value 1.5, precision 3, `max_field_len` 4 satisfies the
hypotheses and the output "+1.5" indeed fits in 4 characters. -/
theorem dtoa_fit_length_witness :
    (dtoa (some (3 / 2)) 3 4 false true).1.length ≤ 4 :=
  dtoa_fit_length (3 / 2) 3 4 true (by with_unfolding_all decide)
    (by with_unfolding_all decide)

/-- C2 (counterexample): `dtoa(0.25, precision 1)` (no sign flag) yields
"0.3", not the round-half-to-even "0.2" asserted by the claim: the
remainder 0.5 already satisfies the `> 0.499` round-up test, so the parity
tie-break never executes. -/
theorem dtoa_c2_counterexample :
    (dtoa (some (1 / 4)) 1 0 false false).1 = "0.3" ∧
      (dtoa (some (1 / 4)) 1 0 false false).1 ≠ "0.2" := by
  with_unfolding_all decide

/-- C2 (amended): `dtoa` rounds up whenever the scaled fractional remainder
exceeds 0.499; because 0.5 > 0.499, a remainder of exactly one half always
rounds up regardless of the parity of the last kept digit (the rounding
block at a remainder of 1/2 behaves identically to a clear round-up
remainder of 3/4), and `dtoa(0.25, precision 1)` gives "0.3" while
`dtoa(0.15, precision 1)` gives "0.2". -/
theorem dtoa_tie_rounds_up :
    (∀ p w f : ℕ, dtoaRound p w f (1 / 2) = dtoaRound p w f (3 / 4)) ∧
      (dtoa (some (1 / 4)) 1 0 false false).1 = "0.3" ∧
      (dtoa (some (3 / 20)) 1 0 false false).1 = "0.2" := by
  refine ⟨fun p w f => ?_, by with_unfolding_all decide, by with_unfolding_all decide⟩
  unfold dtoaRound
  norm_num

/-- C5: a NaN input makes both overloads write exactly the token "NaN" and
return length 0, for every parameter combination. -/
theorem dtoa_nan_token :
    ∀ (prec fit_len : ℕ) (zt psn : Bool),
      dtoa none prec fit_len zt psn = ("NaN", 0) ∧
        dtoaStr none prec fit_len zt psn = ("NaN", 0) :=
  fun _ _ _ _ => ⟨rfl, rfl⟩

/-- C6: whenever the integral digit count of the value reaches or exceeds a
positive `max_field_len`, `dtoa` returns the overflow token "NaN" with
returned length 0 and emits no numeric field. -/
theorem dtoa_integral_overflow :
    ∀ (q : ℚ) (prec fit_len : ℕ) (zt psn : Bool), 0 < fit_len →
      fit_len ≤ IntegralLength q →
      dtoa (some q) prec fit_len zt psn = ("NaN", 0) :=
  fun q prec fit_len zt psn h1 h2 => dtoa_gate q prec fit_len zt psn h1 h2

/-- C6 (witness): 12345 has five integral digits, so with `max_field_len`
3 the encoder overflows to "NaN" with length 0. -/
theorem dtoa_integral_overflow_witness :
    dtoa (some 12345) 2 3 false true = ("NaN", 0) :=
  dtoa_integral_overflow 12345 2 3 false true (by omega)
    (by with_unfolding_all decide)

/-- C10: `IntegralLength` always reports at least one digit (its do-while
loop runs at least once, so magnitudes below one still count one digit),
and consequently `dtoa` with `max_field_len = 1` returns the overflow token
"NaN" with length 0 for every value. -/
theorem integralLength_pos_and_fit1 :
    (∀ q : ℚ, 1 ≤ IntegralLength q) ∧
      ∀ (q : ℚ) (prec : ℕ) (zt psn : Bool),
        dtoa (some q) prec 1 zt psn = ("NaN", 0) :=
  ⟨fun _ => intLenLoop_pos _,
   fun q prec zt psn => dtoa_gate q prec 1 zt psn (by omega) (intLenLoop_pos _)⟩

/-- C9 (counterexample): at value 0.24995, precision 1, the char-buffer
overload rounds the scaled remainder 0.4995 up (its 0.499 threshold) and
writes "0.3", while the String overload re-renders the value through the
Arduino float-to-text conversion at the stripped precision and produces
"0.2"; the two overloads do not produce the same character sequence. -/
theorem dtoa_c9_counterexample :
    dtoa (some (4999 / 20000)) 1 0 false false = ("0.3", 3) ∧
      dtoaStr (some (4999 / 20000)) 1 0 false false = ("0.2", 3) ∧
      dtoa (some (4999 / 20000)) 1 0 false false ≠
        dtoaStr (some (4999 / 20000)) 1 0 false false := by
  with_unfolding_all decide

/-- C9 (amended): the two overloads agree on the special paths — a NaN
input and the integral-length overflow gate both produce ("NaN", 0) in
either overload — but not in general on the digit-rendering path. -/
theorem dtoa_overloads_agree_special :
    ∀ (prec fit_len : ℕ) (zt psn : Bool),
      dtoa none prec fit_len zt psn = dtoaStr none prec fit_len zt psn ∧
        ∀ q : ℚ, 0 < fit_len → fit_len ≤ IntegralLength q →
          dtoa (some q) prec fit_len zt psn =
            dtoaStr (some q) prec fit_len zt psn := by
  intro prec fit_len zt psn
  refine ⟨rfl, fun q h1 h2 => ?_⟩
  rw [dtoa_gate q prec fit_len zt psn h1 h2,
    dtoaStr_gate q prec fit_len zt psn h1 h2]

/-- C9 (witness): at value 54321 and `max_field_len` 4 the overflow gate
fires in both overloads, which therefore agree. -/
theorem dtoa_overloads_agree_special_witness :
    dtoa (some 54321) 1 4 false true = dtoaStr (some 54321) 1 4 false true :=
  (dtoa_overloads_agree_special 1 4 false true).2 54321 (by omega)
    (by with_unfolding_all decide)

/-- C7: `SetAddress` with a non-alphanumeric character returns false and
leaves the sensor address and the EEPROM store unchanged, while with an
alphanumeric character it returns true and a subsequent `Address` query
reports the new character. -/
theorem setAddress_spec :
    ∀ (s : SDI12Sensor) (ee : EEPROMState) (c : Char),
      (isalnum c = false → s.SetAddress ee c = (false, s, ee)) ∧
        (isalnum c = true → (s.SetAddress ee c).1 = true ∧
          (s.SetAddress ee c).2.1.Address = c) := by
  intro s ee c
  constructor
  · intro h
    simp [SDI12Sensor.SetAddress, h]
  · intro h
    simp [SDI12Sensor.SetAddress, h, SDI12Sensor.Address]

/-- C7 (witness): on a sensor holding address '3' with EEPROM disabled,
`SetAddress('$')` fails leaving everything unchanged and `SetAddress('5')`
succeeds with the address query reporting '5'. -/
theorem setAddress_spec_witness :
    (SDI12Sensor.SetAddress ⟨'3', -1⟩ ⟨fun _ => 'z'⟩ '$' =
        (false, ⟨'3', -1⟩, ⟨fun _ => 'z'⟩)) ∧
      ((SDI12Sensor.SetAddress ⟨'3', -1⟩ ⟨fun _ => 'z'⟩ '5').1 = true ∧
        (SDI12Sensor.SetAddress ⟨'3', -1⟩ ⟨fun _ => 'z'⟩ '5').2.1.Address = '5') :=
  ⟨(setAddress_spec ⟨'3', -1⟩ ⟨fun _ => 'z'⟩ '$').1 (by decide),
   (setAddress_spec ⟨'3', -1⟩ ⟨fun _ => 'z'⟩ '5').2 (by decide)⟩

/-- Alphanumeric addresses are preserved by any sequence of `SetAddress`
calls. -/
theorem runSetAddresses_alnum (cs : List Char) :
    ∀ (s : SDI12Sensor) (ee : EEPROMState), isalnum s.Address = true →
      isalnum ((runSetAddresses (s, ee) cs).1.Address) = true := by
  induction cs with
  | nil => intro s ee h; exact h
  | cons c cs ih =>
    intro s ee h
    rw [runSetAddresses]
    by_cases hc : isalnum c
    · refine ih _ _ ?_
      simp [SDI12Sensor.SetAddress, hc, SDI12Sensor.Address]
    · refine ih _ _ ?_
      simp only [SDI12Sensor.SetAddress, Bool.not_eq_true] at hc ⊢
      rw [if_neg (by simp [hc])]
      exact h

/-- The two-argument constructor always establishes an alphanumeric
address. -/
theorem construct_alnum (address : Char) (eeprom_address : Int)
    (ee : EEPROMState) :
    isalnum (SDI12Sensor.construct address eeprom_address ee).Address = true := by
  simp only [SDI12Sensor.construct, SDI12Sensor.Address]
  by_cases h1 : 0 ≤ eeprom_address
  · simp only [if_pos h1]
    by_cases h2 : isalnum (ee.read eeprom_address) = false
    · simp only [h2, if_pos]
      decide
    · simp only [h2, if_neg]
      simpa using h2
  · simp only [if_neg h1]
    by_cases h3 : isalnum address = false
    · simp only [h3, if_pos]
      decide
    · simp only [h3, if_neg]
      simpa using h3

/-- C8: after construction (either constructor, any initial or EEPROM-read
character) and any sequence of `SetAddress` calls, the stored address is
always alphanumeric: invalid initial addresses are replaced by '0' and
invalid mutations are rejected. -/
theorem address_always_alnum :
    ∀ (address : Char) (eeprom_address : Int) (ee : EEPROMState)
      (cs : List Char),
      isalnum ((runSetAddresses
        (SDI12Sensor.construct address eeprom_address ee, ee) cs).1.Address)
          = true ∧
      isalnum ((runSetAddresses (SDI12Sensor.mkDefault, ee) cs).1.Address)
          = true := by
  intro address eeprom_address ee cs
  constructor
  · exact runSetAddresses_alnum cs _ ee (construct_alnum address eeprom_address ee)
  · exact runSetAddresses_alnum cs _ ee (by decide)

/-- Invariant of the packing fold: if every remaining field's returned
length matches its text and is below the cap, lines already closed and the
line under construction stay below the cap. -/
theorem packFoldl_invariant (maxChar : ℕ) (fields : List (String × ℕ)) :
    ∀ acc : List String × String,
      (∀ p ∈ fields, p.2 = p.1.length ∧ p.1.length < maxChar) →
      (∀ l ∈ acc.1, l.length < maxChar) → acc.2.length < maxChar →
      (∀ l ∈ (fields.foldl (packStep maxChar) acc).1, l.length < maxChar) ∧
        (fields.foldl (packStep maxChar) acc).2.length < maxChar := by
  induction fields with
  | nil => exact fun acc _ h1 h2 => ⟨h1, h2⟩
  | cons p fields ih =>
    intro acc hf h1 h2
    simp only [List.foldl_cons]
    have hp := hf p (List.mem_cons_self _ _)
    refine ih _ (fun p2 hp2 => hf p2 (List.mem_cons_of_mem _ hp2)) ?_ ?_
    · unfold packStep
      split_ifs with hc
      · exact h1
      · intro l hl
        rcases List.mem_append.mp hl with hl | hl
        · exact h1 l hl
        · rw [List.mem_singleton.mp hl]
          exact h2
    · unfold packStep
      split_ifs with hc
      · rw [String.length_append]
        omega
      · exact hp.2

/-- Every line produced by the packing loop stays below the cap when every
field is faithfully measured and below the cap. -/
theorem packFields_bound (fields : List (String × ℕ)) (maxChar : ℕ)
    (h0 : 0 < maxChar)
    (hf : ∀ p ∈ fields, p.2 = p.1.length ∧ p.1.length < maxChar) :
    ∀ line ∈ packFields fields maxChar, line.length < maxChar := by
  intro line hl
  unfold packFields at hl
  have hinv := packFoldl_invariant maxChar fields ([], "") hf (by simp)
    (by simpa using h0)
  rcases List.mem_append.mp hl with h | h
  · exact hinv.1 line h
  · rw [List.mem_singleton.mp h]
    exact hinv.2

/-- C4 (counterexample): with the measurement list 78.777777, 78.777777,
78.777777, 5.5555, NaN, 0, 0, 0, 0 and the 35-character cap, the first
response line is 37 characters long: the loop measures the overflow token
"NaN" with the returned length 0 but appends its three characters, so the
produced line exceeds the cap and appending is not governed by the
resulting line length. -/
theorem formatOutputSDI_c4_counterexample :
    ((formatOutputSDI [some 78.777777, some 78.777777, some 78.777777,
        some 5.5555, none, some 0, some 0, some 0, some 0]
        SDI12_VALUES_STR_SIZE_35).getD 0 "").length = 37 ∧
      ¬((37 : ℕ) ≤ SDI12_VALUES_STR_SIZE_35) := by
  constructor
  · with_unfolding_all decide
  · decide

/-- C4 (amended): `formatOutputSDI` packs first-fit greedily against the
sum of the current line length and the length value returned by `dtoa`:
whenever every encoded field's returned length equals its text length and
is below the (positive) cap — which holds exactly when no field overflows
to "NaN" — every produced line, including the blank filler slots, is
strictly below the cap; the line boundaries are a function of the values
alone. -/
theorem formatOutputSDI_lines_bound :
    ∀ (values : List (Option ℚ)) (maxChar : ℕ), 0 < maxChar →
      (∀ v ∈ values, (dtoa v 6 SDI12_VALUE_STR_SIZE false true).2 =
          (dtoa v 6 SDI12_VALUE_STR_SIZE false true).1.length ∧
        (dtoa v 6 SDI12_VALUE_STR_SIZE false true).1.length < maxChar) →
      ∀ line ∈ formatOutputSDI values maxChar, line.length < maxChar := by
  intro values maxChar h0 h line hl
  unfold formatOutputSDI at hl
  rcases List.mem_append.mp hl with hm | hm
  · refine packFields_bound _ maxChar h0 ?_ line hm
    intro p hp
    rcases List.mem_map.mp hp with ⟨v, hv, rfl⟩
    exact h v hv
  · rw [List.eq_of_mem_replicate hm]
    simpa using h0

/-- C4 (witness): for values 1 and 2 with the 35-character cap, every
field encodes faithfully and every produced line is under the cap. -/
theorem formatOutputSDI_lines_bound_witness :
    ((formatOutputSDI [some 1, some 2] 35).getD 0 "").length < 35 :=
  formatOutputSDI_lines_bound [some 1, some 2] 35 (by omega)
    (by with_unfolding_all decide)
    ((formatOutputSDI [some 1, some 2] 35).getD 0 "")
    (by with_unfolding_all decide)

/-- C3: in the measurement (`aM!`) cycle of the slave loop, when the
acquisition delay ends with a line break observed or the device no longer
active, every response-line slot is cleared to the empty string and only
the timing token was sent (no completion notice); with no interruption the
cycle packs the polled values (the first three lines are non-empty) and
sends the completion notice "0\r\n" — the address alone plus terminator. -/
theorem measurement_cycle_spec :
    ∀ lb act : Bool,
      ((lb = true ∨ act = false) →
        measurementCycle lb act = (["00219\r\n"], List.replicate 10 "")) ∧
        (lb = false → act = true →
          measurementCycle lb act = (["00219\r\n", "0\r\n"],
              formatOutputSDI pollSensorValues SDI12_VALUES_STR_SIZE_35) ∧
            ∀ s ∈ (measurementCycle lb act).2.take 3, s ≠ "") := by
  intro lb act
  cases lb <;> cases act
  · exact ⟨fun _ => by with_unfolding_all rfl, fun h1 h2 => by simp at h2⟩
  · refine ⟨fun h => by rcases h with h | h <;> simp at h, fun h1 h2 => ?_⟩
    constructor
    · with_unfolding_all rfl
    · with_unfolding_all decide
  · exact ⟨fun _ => by with_unfolding_all rfl, fun h1 h2 => by simp at h1⟩
  · exact ⟨fun _ => by with_unfolding_all rfl, fun h1 h2 => by simp at h1⟩

/-- C3 (witness): with a line break the cycle clears the lines and sends
only the timing token; undisturbed it sends the completion notice and
packs non-empty lines. -/
theorem measurement_cycle_spec_witness :
    measurementCycle true true = (["00219\r\n"], List.replicate 10 "") ∧
      (measurementCycle false true = (["00219\r\n", "0\r\n"],
          formatOutputSDI pollSensorValues SDI12_VALUES_STR_SIZE_35) ∧
        ∀ s ∈ (measurementCycle false true).2.take 3, s ≠ "") :=
  ⟨(measurement_cycle_spec true true).1 (Or.inl rfl),
   (measurement_cycle_spec false true).2 rfl rfl⟩

end SDI12
